import Mathlib

/-!
Verification of the CANIS spectral-analysis engine.

The numerical procedures of `frontend/src/utils/analysisAlgorithms.ts` and the
integration / boundary-management logic of
`frontend/src/components/SpectrumViewer.tsx` are embedded shallowly: JavaScript
numbers are modelled as exact rationals (`ℚ`), except for the
absorbance/transmittance conversion whose `10^x` / `log10` transcendentals are
modelled over `ℝ`.  Imperative `for` loops become structural recursions (fuel
equal to the loop bound), early `break` / `continue` become conditional
returns, and JavaScript objects become structures.  Names follow the source.
-/

namespace Canis

/-! Matrix utilities (class `Matrix` of `analysisAlgorithms.ts`).  `data` is a
row-major list of rows; `get` returns 0 out of bounds (the JS code never reads
out of bounds on the paths modelled here). -/

structure Matrix where
  rows : Nat
  cols : Nat
  data : List (List ℚ)
deriving DecidableEq

def Matrix.get (M : Matrix) (i j : Nat) : ℚ :=
  (M.data.getD i []).getD j 0

/-- Build a `rows × cols` matrix from an entry function; used to embed the
JS constructor-plus-`set` loops that fill a fresh matrix. -/
def Matrix.ofFn (rows cols : Nat) (f : Nat → Nat → ℚ) : Matrix :=
  ⟨rows, cols, (List.range rows).map fun i => (List.range cols).map fun j => f i j⟩

def Matrix.multiply (M N : Matrix) : Matrix :=
  Matrix.ofFn M.rows N.cols fun i j =>
    (((List.range M.cols).map fun k => M.get i k * N.get k j)).sum

def Matrix.transpose (M : Matrix) : Matrix :=
  Matrix.ofFn M.cols M.rows fun i j => M.get j i

def Matrix.diagonal (values : List ℚ) : Matrix :=
  Matrix.ofFn values.length values.length fun i j =>
    if i = j then values.getD i 0 else 0

/-- `createDifferenceMatrix` of `analysisAlgorithms.ts`: the `(n-order) × n`
finite-difference operator (order 1 or 2); rows are zero for other orders. -/
def createDifferenceMatrix (n : Nat) (order : Nat) : Matrix :=
  Matrix.ofFn (n - order) n fun i j =>
    if order = 1 then
      (if j = i then -1 else if j = i + 1 then 1 else 0)
    else if order = 2 then
      (if j = i then 1 else if j = i + 1 then -2 else if j = i + 2 then 1 else 0)
    else 0

/-! Conjugate-gradient solver (`solveLinearSystem` of `analysisAlgorithms.ts`).
The loop state is `(x, r, p)`; the named intermediates below are the local
variables of one loop body (`Ap`, `rTr`, `pTAp`, `alpha`, `newR`,
`newRTnewR`, `beta`, and the updated `x` and `p`). -/

structure CGState where
  x : List ℚ
  r : List ℚ
  p : List ℚ
deriving DecidableEq

def dotProduct (a b : List ℚ) : ℚ :=
  (List.zipWith (· * ·) a b).sum

/-- `Ap[i] = Σ_{j<rows} A[i][j]·v[j]` (both loops run to `A.rows` in the JS). -/
def matVec (A : Matrix) (v : List ℚ) : List ℚ :=
  (List.range A.rows).map fun i =>
    (((List.range A.rows).map fun j => A.get i j * v.getD j 0)).sum

/-- The `1e-12` tolerance of `solveLinearSystem`. -/
def cgEps : ℚ := 1 / 10 ^ 12

def cgAp (A : Matrix) (s : CGState) : List ℚ := matVec A s.p

def cgRTr (s : CGState) : ℚ := dotProduct s.r s.r

def cgPTAp (A : Matrix) (s : CGState) : ℚ := dotProduct s.p (cgAp A s)

def cgAlpha (A : Matrix) (s : CGState) : ℚ := cgRTr s / cgPTAp A s

def cgX2 (A : Matrix) (s : CGState) : List ℚ :=
  List.zipWith (fun xi pi => xi + cgAlpha A s * pi) s.x s.p

def cgNewR (A : Matrix) (s : CGState) : List ℚ :=
  List.zipWith (fun ri api => ri - cgAlpha A s * api) s.r (cgAp A s)

def cgNewRTR (A : Matrix) (s : CGState) : ℚ :=
  dotProduct (cgNewR A s) (cgNewR A s)

def cgBeta (A : Matrix) (s : CGState) : ℚ := cgNewRTR A s / cgRTr s

def cgP2 (A : Matrix) (s : CGState) : List ℚ :=
  List.zipWith (fun nri pi => nri + cgBeta A s * pi) (cgNewR A s) s.p

/-- One-to-one embedding of the `for (iter …)` loop of `solveLinearSystem`:
break on `|pᵀAp| < 1e-12` before updating, break on `newRᵀnewR < 1e-12`
after updating `x` and the residual, otherwise continue with the updated
state. -/
def cgLoop (A : Matrix) : Nat → CGState → CGState
  | 0, s => s
  | fuel + 1, s =>
    if |cgPTAp A s| < cgEps then s
    else if cgNewRTR A s < cgEps then ⟨cgX2 A s, cgNewR A s, s.p⟩
    else cgLoop A fuel ⟨cgX2 A s, cgNewR A s, cgP2 A s⟩

/-- Number of loop iterations actually performed by `cgLoop` (a `break`
during iteration `k+1` counts that iteration, as in the source where the
body has already run up to the break). -/
def cgCount (A : Matrix) : Nat → CGState → Nat
  | 0, _ => 0
  | fuel + 1, s =>
    if |cgPTAp A s| < cgEps then 0
    else if cgNewRTR A s < cgEps then 1
    else 1 + cgCount A fuel ⟨cgX2 A s, cgNewR A s, cgP2 A s⟩

/-- `solveLinearSystem` of `analysisAlgorithms.ts`: starts from
`x = 0, r = p = b` and runs at most `min(n, 50)` conjugate-gradient
iterations. -/
def solveLinearSystem (A : Matrix) (b : List ℚ) : List ℚ :=
  (cgLoop A (min A.rows 50) ⟨List.replicate A.rows 0, b, b⟩).x

def cgIterations (A : Matrix) (b : List ℚ) : Nat :=
  cgCount A (min A.rows 50) ⟨List.replicate A.rows 0, b, b⟩

/-! Asymmetric least-squares baseline correction
(`alsBaselineCorrection` of `analysisAlgorithms.ts`). -/

/-- The `for (iter …)` loop of `alsBaselineCorrection`: build
`A = W + λ·DᵀD`, solve `A z = W y`, reweight asymmetrically, stop early
when the largest baseline change is below `1e-6`. -/
def alsIter (lambda p : ℚ) (y : List ℚ) (DTD : Matrix) :
    Nat → List ℚ → List ℚ → List ℚ
  | 0, _, baseline => baseline
  | fuel + 1, w, baseline =>
    let n := y.length
    let A := Matrix.ofFn n n fun i j => (Matrix.diagonal w).get i j + lambda * DTD.get i j
    let b := List.zipWith (· * ·) w y
    let baseline2 := solveLinearSystem A b
    let w2 := List.zipWith (fun yi zi => if zi ≤ yi then p else 1 - p) y baseline2
    let maxDiff := ((List.zipWith (fun a b => |a - b|) baseline2 baseline)).foldl max 0
    if maxDiff < 1 / 10 ^ 6 then baseline2
    else alsIter lambda p y DTD fuel w2 baseline2

/-- `alsBaselineCorrection` of `analysisAlgorithms.ts`; returns
`(corrected, baseline)`. -/
def alsBaselineCorrection (y : List ℚ) (lambda p : ℚ) (maxIterations : Nat) :
    List ℚ × List ℚ :=
  let n := y.length
  let D := createDifferenceMatrix n 2
  let DTD := (D.transpose).multiply D
  let baseline := alsIter lambda p y DTD maxIterations (List.replicate n 1) y
  let corrected := List.zipWith (fun val bi => max 0 (val - bi)) y baseline
  (corrected, baseline)

/-! Peak detection (`detectPeaks` and `detectPeaksSimplified` of
`analysisAlgorithms.ts`). -/

inductive DataMode
  | absorbance
  | transmittance
deriving DecidableEq, Repr

/-- The techniques for which transmittance data flips detection to valley
mode (the literal array in `shouldDetectValleys`). -/
def techniqueList : List String := ["uv-vis", "uv", "vis", "ir", "infrared"]

/-- Detected peak record (`DetectedPeak` of `analysisAlgorithms.ts`).  The JS
`id` string `peak_${peaks.length}_${i}` is modelled by the pair of numbers it
interpolates. -/
structure DetectedPeak where
  id : Nat × Nat
  x : ℚ
  y : ℚ
  prominence : ℚ
  width : Option ℚ := none
  leftBase : Option ℚ := none
  rightBase : Option ℚ := none
deriving DecidableEq, Repr

/-- Parameters of `detectPeaks`, with the source's destructuring defaults. -/
structure PeakParams where
  prominence : ℚ := 1 / 100
  distance : ℚ := 5
  width : ℚ := 2
  threshold : ℚ := 1 / 1000
  relativeThreshold : ℚ := 1 / 20
  detectValleys : Bool := false
  technique : String := ""
  dataMode : DataMode := DataMode.absorbance
deriving DecidableEq, Repr

def shouldDetectValleys (P : PeakParams) : Bool :=
  P.detectValleys ||
    (decide (P.dataMode = DataMode.transmittance) && techniqueList.contains P.technique.toLower)

/-- `Math.max(...l)` for the nonempty lists this code applies it to. -/
def jsMaxList (l : List ℚ) : ℚ := l.foldl max (l.headD 0)

/-- `Math.min(...l)` for the nonempty lists this code applies it to. -/
def jsMinList (l : List ℚ) : ℚ := l.foldl min (l.headD 0)

/-- Leftward prominence scan of `detectPeaks` (`for (j = i-1; j >= 0; j--)`):
track the most extreme opposing value seen (update before the break test),
stop early at a more extreme same-sign point. -/
def promScanLeft (y : List ℚ) (cur : ℚ) (valley : Bool) : Nat → ℚ → Nat → ℚ × Nat
  | 0, ext, base =>
    let yj := y.getD 0 0
    if (if valley then decide (ext < yj) else decide (yj < ext)) then (yj, 0) else (ext, base)
  | j + 1, ext, base =>
    let yj := y.getD (j + 1) 0
    let upd := if (if valley then decide (ext < yj) else decide (yj < ext)) then (yj, j + 1)
               else (ext, base)
    if (if valley then decide (yj < cur) else decide (cur < yj)) then upd
    else promScanLeft y cur valley j upd.1 upd.2

/-- Rightward prominence scan of `detectPeaks` (`for (j = i+1; j < n; j++)`),
with fuel `n - j`. -/
def promScanRightAux (y : List ℚ) (cur : ℚ) (valley : Bool) : Nat → Nat → ℚ → Nat → ℚ × Nat
  | 0, _, ext, base => (ext, base)
  | fuel + 1, j, ext, base =>
    let yj := y.getD j 0
    let upd := if (if valley then decide (ext < yj) else decide (yj < ext)) then (yj, j)
               else (ext, base)
    if (if valley then decide (yj < cur) else decide (cur < yj)) then upd
    else promScanRightAux y cur valley fuel (j + 1) upd.1 upd.2

def promScanRight (y : List ℚ) (cur : ℚ) (valley : Bool) (n j : Nat) (ext : ℚ) (base : Nat) :
    ℚ × Nat :=
  promScanRightAux y cur valley (n - j) j ext base

/-- Leftward half-height walk (`for (j = i-1; j >= leftBase; j--)`), returning
the first crossing or the default `i`. -/
def halfScanLeft (y : List ℚ) (halfLevel : ℚ) (valley : Bool) (lb d : Nat) : Nat → Nat
  | 0 =>
    if 0 < lb then d
    else if (if valley then decide (halfLevel ≤ y.getD 0 0) else decide (y.getD 0 0 ≤ halfLevel))
      then 0 else d
  | j + 1 =>
    if j + 1 < lb then d
    else if (if valley then decide (halfLevel ≤ y.getD (j + 1) 0)
        else decide (y.getD (j + 1) 0 ≤ halfLevel)) then j + 1
    else halfScanLeft y halfLevel valley lb d j

/-- Rightward half-height walk (`for (j = i+1; j <= rightBase; j++)`), with
fuel `rightBase + 1 - j`. -/
def halfScanRightAux (y : List ℚ) (halfLevel : ℚ) (valley : Bool) (d : Nat) : Nat → Nat → Nat
  | 0, _ => d
  | fuel + 1, j =>
    if (if valley then decide (halfLevel ≤ y.getD j 0) else decide (y.getD j 0 ≤ halfLevel))
      then j
    else halfScanRightAux y halfLevel valley d fuel (j + 1)

def halfScanRight (y : List ℚ) (halfLevel : ℚ) (valley : Bool) (rb d j : Nat) : Nat :=
  halfScanRightAux y halfLevel valley d (rb + 1 - j) j

/-- `Number.EPSILON` = 2⁻⁵². -/
def jsEpsilon : ℚ := 1 / 2 ^ 52

/-- `x.findIndex(xVal => Math.abs(xVal - v) < Number.EPSILON)`: first matching
index, `-1` if none. -/
def findIndexNear (x : List ℚ) (v : ℚ) : Int :=
  match x.findIdx? (fun xv => decide (|xv - v| < jsEpsilon)) with
  | some i => (i : Int)
  | none => -1

/-- Body of the main `for (i = 1; i < n - 1; i++)` loop of `detectPeaks`:
the candidate peak pushed at index `i` (given the peaks accepted so far), or
`none` on any of the `continue` paths. -/
def peakCandidate (x y : List ℚ) (P : PeakParams) (valley : Bool) (maxI minI : ℚ)
    (peaks : List DetectedPeak) (i : Nat) : Option DetectedPeak :=
  let n := y.length
  let currentY := y.getD i 0
  let absoluteProminence := P.prominence * (maxI - minI)
  let absoluteThreshold := max P.threshold (P.relativeThreshold * maxI)
  let gateFail : Bool := if valley then decide (maxI - absoluteThreshold < currentY)
                         else decide (currentY < absoluteThreshold)
  let isExtremum : Bool :=
    if valley then decide (currentY < y.getD (i - 1) 0 ∧ currentY < y.getD (i + 1) 0)
    else decide (y.getD (i - 1) 0 < currentY ∧ y.getD (i + 1) 0 < currentY)
  if gateFail then none
  else if !isExtremum then none
  else
    let left := promScanLeft y currentY valley (i - 1) currentY i
    let right := promScanRight y currentY valley n (i + 1) currentY i
    let peakProminence := if valley then min left.1 right.1 - currentY
                          else currentY - max left.1 right.1
    if peakProminence < absoluteProminence then none
    else
      let halfLevel := if valley then (currentY + min left.1 right.1) / 2
                       else (currentY + max left.1 right.1) / 2
      let leftHalf := halfScanLeft y halfLevel valley left.2 i (i - 1)
      let rightHalf := halfScanRight y halfLevel valley right.2 i (i + 1)
      let peakWidth : ℚ := (rightHalf : ℚ) - (leftHalf : ℚ)
      if peakWidth < P.width then none
      else if peaks.any fun pk =>
          decide (|(i : ℚ) - ((findIndexNear x pk.x : ℤ) : ℚ)| < P.distance) then none
      else some { id := (peaks.length, i), x := x.getD i 0, y := currentY,
                  prominence := peakProminence, width := some peakWidth,
                  leftBase := some (x.getD left.2 0), rightBase := some (x.getD right.2 0) }

def detectPeaksLoop (x y : List ℚ) (P : PeakParams) (valley : Bool) (maxI minI : ℚ) :
    List DetectedPeak :=
  (List.range' 1 (y.length - 2)).foldl
    (fun peaks i => peaks ++ (peakCandidate x y P valley maxI minI peaks i).toList) []

/-- `detectPeaks` of `analysisAlgorithms.ts`: guard on malformed input, main
detection loop, then sort by descending prominence (the JS comparator
`(a, b) => b.prominence - a.prominence`, as a stable sort). -/
def detectPeaks (x y : List ℚ) (P : PeakParams) : List DetectedPeak :=
  let valley := shouldDetectValleys P
  if x.length ≠ y.length ∨ x.length < 3 then []
  else
    List.mergeSort (detectPeaksLoop x y P valley (jsMaxList y) (jsMinList y))
      (fun a b => decide (b.prominence ≤ a.prominence))

/-- Parameters of `detectPeaksSimplified`, with the source's defaults.
`windowSize` is the integral window radius. -/
structure SimplePeakParams where
  prominence : ℚ := 1 / 20
  distance : ℚ := 10
  windowSize : Nat := 5
  detectValleys : Bool := false
  technique : String := ""
  dataMode : DataMode := DataMode.absorbance
deriving DecidableEq, Repr

def shouldDetectValleysSimple (P : SimplePeakParams) : Bool :=
  P.detectValleys ||
    (decide (P.dataMode = DataMode.transmittance) && techniqueList.contains P.technique.toLower)

/-- `detectPeaksSimplified` of `analysisAlgorithms.ts`: fixed-radius
local-window extremum test, two-window prominence estimate, x-distance
filter, then the same descending-prominence sort. -/
def detectPeaksSimplified (x y : List ℚ) (P : SimplePeakParams) : List DetectedPeak :=
  let valley := shouldDetectValleysSimple P
  if x.length ≠ y.length ∨ x.length < P.windowSize * 2 + 1 then []
  else
    let n := y.length
    let minProminence := P.prominence * (jsMaxList y - jsMinList y)
    List.mergeSort
      ((List.range' P.windowSize (n - 2 * P.windowSize)).foldl
        (fun peaks i =>
          let currentY := y.getD i 0
          let isLocalExtremum :=
            (List.range' (i - P.windowSize) (2 * P.windowSize + 1)).all fun j =>
              decide (j = i) ||
                (if valley then decide (currentY < y.getD j 0) else decide (y.getD j 0 < currentY))
          if !isLocalExtremum then peaks
          else
            let leftSlice := (y.drop (i - P.windowSize * 2)).take (i - (i - P.windowSize * 2))
            let rightSlice := (y.drop (i + 1)).take (min n (i + P.windowSize * 2 + 1) - (i + 1))
            let localProminence :=
              if valley then min (jsMaxList leftSlice) (jsMaxList rightSlice) - currentY
              else currentY - max (jsMinList leftSlice) (jsMinList rightSlice)
            if localProminence < minProminence then peaks
            else if peaks.any fun pk => decide (|pk.x - x.getD i 0| < P.distance) then peaks
            else peaks ++ [{ id := (peaks.length, i), x := x.getD i 0, y := currentY,
                             prominence := localProminence }]) [])
      (fun a b => decide (b.prominence ≤ a.prominence))

/-! Peak integration and boundary management (`calculatePeakArea`,
`recalculateIntegrationForPeak` and the boundary part of `handlePlotClick`
in `SpectrumViewer.tsx`).  The index-searching `for` loops are embedded by
generic first/last-index scans over `Nat` predicates; they model the loops
on nonempty data (the only way they are reached in the source). -/

/-- Upward scan (`for (i = 0; i < n; i++) if (p(i)) break`), fuelled. -/
def scanUp (p : Nat → Bool) : Nat → Nat → Option Nat
  | 0, _ => none
  | fuel + 1, j => if p j then some j else scanUp p fuel (j + 1)

/-- Downward scan (`for (i = j; i >= 0; i--) if (p(i)) break`). -/
def scanDown (p : Nat → Bool) : Nat → Option Nat
  | 0 => if p 0 then some 0 else none
  | j + 1 => if p (j + 1) then some (j + 1) else scanDown p j

/-- First index in `[0, n)` satisfying `p`, defaulting to the initialiser `0`
of the JS `startIndex` when the loop finds nothing. -/
def firstIdxWhere (p : Nat → Bool) (n : Nat) : Nat := (scanUp p n 0).getD 0

/-- Last index in `[0, n)` satisfying `p`, defaulting to the initialiser
`n - 1` of the JS `endIndex` when the loop finds nothing. -/
def lastIdxWhere (p : Nat → Bool) (n : Nat) : Nat := (scanDown p (n - 1)).getD (n - 1)

/-- The collapse-widening step shared by `calculatePeakArea` and
`recalculateIntegrationForPeak`: if `startIndex >= endIndex`, move each side
out by one where possible. -/
def collapseWiden (n si ei : Nat) : Nat × Nat :=
  if ei ≤ si then
    ((if 0 < si then si - 1 else si), (if ei < n - 1 then ei + 1 else ei))
  else (si, ei)

/-- Boundary-to-index mapping of `calculatePeakArea` (manual-boundaries
branch, before collapse widening): first index with `x[i] ≥ start`, last
index with `x[i] ≤ end`, with no direction detection. -/
def calcManualIndicesRaw (x : List ℚ) (s e : ℚ) : Nat × Nat :=
  (firstIdxWhere (fun i => decide (s ≤ x.getD i 0)) x.length,
   lastIdxWhere (fun i => decide (x.getD i 0 ≤ e)) x.length)

def calcManualIndices (x : List ℚ) (s e : ℚ) : Nat × Nat :=
  collapseWiden x.length (calcManualIndicesRaw x s e).1 (calcManualIndicesRaw x s e).2

/-- Boundary-to-index mapping of `recalculateIntegrationForPeak` (before
collapse widening): detects direction by comparing `x[0]` with `x[last]`;
ascending uses the `calculatePeakArea` rule, descending uses first index with
`x[i] ≤ max(start, end)` and last index with `x[i] ≥ min(start, end)`. -/
def recalcIndicesRaw (x : List ℚ) (s e : ℚ) : Nat × Nat :=
  if x.getD 0 0 < x.getD (x.length - 1) 0 then calcManualIndicesRaw x s e
  else
    (firstIdxWhere (fun i => decide (x.getD i 0 ≤ max s e)) x.length,
     lastIdxWhere (fun i => decide (min s e ≤ x.getD i 0)) x.length)

def recalcIndices (x : List ℚ) (s e : ℚ) : Nat × Nat :=
  collapseWiden x.length (recalcIndicesRaw x s e).1 (recalcIndicesRaw x s e).2

/-- The trapezoidal loop
`for (i = startIndex; i < endIndex; i++) if (i+1 < x.length) area += (y[i]+y[i+1])/2 * (x[i+1]-x[i])`. -/
def trapezoidSum (x y : List ℚ) (si ei : Nat) : ℚ :=
  (((List.range' si (ei - si)).map fun i =>
    if i + 1 < x.length then (y.getD i 0 + y.getD (i + 1) 0) / 2 * (x.getD (i + 1) 0 - x.getD i 0)
    else 0)).sum

/-- Integration area over a fixed boundary index pair: the trapezoidal sum
with absolute value applied, as in both `calculatePeakArea` and
`recalculateIntegrationForPeak`. -/
def areaAtIndices (x y : List ℚ) (si ei : Nat) : ℚ := |trapezoidSum x y si ei|

/-- The manual-boundaries path of `calculatePeakArea`: empty-data guard,
boundary mapping with collapse widening, validity check returning area `0`,
then trapezoidal integration. -/
def calculatePeakAreaManual (x y : List ℚ) (s e : ℚ) : ℚ :=
  if x.length = 0 ∨ y.length = 0 then 0
  else
    let idx := calcManualIndices x s e
    if idx.2 ≤ idx.1 ∨ x.length ≤ idx.2 then 0
    else areaAtIndices x y idx.1 idx.2

/-- The integration performed by `recalculateIntegrationForPeak` for a peak
with boundaries `(s, e)` over the current data. -/
def recalculateIntegrationForPeak (x y : List ℚ) (s e : ℚ) : ℚ :=
  areaAtIndices x y (recalcIndices x s e).1 (recalcIndices x s e).2

/-- States of the two-click boundary protocol
(`boundaryAdjustmentStep` in `SpectrumViewer.tsx`: `'start'` / `'end'`,
with `null` modelled by `Option`). -/
inductive BoundaryStep
  | settingStart
  | settingEnd
deriving DecidableEq, Repr

/-- The protocol state: the adjustment step together with the selected
peak's boundary fields (`integrationStart`, `integrationEnd`,
`manuallyAdjusted`). -/
structure BoundaryMachine where
  step : Option BoundaryStep
  integrationStart : Option ℚ
  integrationEnd : Option ℚ
  manuallyAdjusted : Bool
deriving DecidableEq, Repr

/-- The boundary-adjustment branch of `handlePlotClick`: requires the
selected peak to have both boundaries set; a first click (step `null` or
`'start'`) stores the clicked `x` as start and moves to `'end'`; a second
click within `0.01` of the start is rejected (state unchanged); otherwise
the two values are ordered as `(min, max)`, the step returns to `null`
and the recalculation marks the peak manually adjusted. -/
def handlePlotClickBoundary (st : BoundaryMachine) (clickX : ℚ) : BoundaryMachine :=
  match st.integrationStart, st.integrationEnd with
  | some startBoundary, some _ =>
    match st.step with
    | some BoundaryStep.settingEnd =>
      if |clickX - startBoundary| < 1 / 100 then st
      else
        { step := none,
          integrationStart := some (min startBoundary clickX),
          integrationEnd := some (max startBoundary clickX),
          manuallyAdjusted := true }
    | _ =>
      { st with step := some BoundaryStep.settingEnd,
                integrationStart := some clickX,
                manuallyAdjusted := true }
  | _, _ => st

/-- The peak detected on the spec scenario `x = [0..4]`, `y = [0,1,5,1,0]`
with `prominence = 0.1`. -/
def scenarioPeak : DetectedPeak :=
  { id := (0, 2), x := 2, y := 5, prominence := 5, width := some 2,
    leftBase := some 0, rightBase := some 4 }

def scenarioParams : PeakParams := { prominence := 1 / 10 }

/-! Absorbance/transmittance conversion
(`convertAbsorbanceTransmittance` of `analysisAlgorithms.ts`), over `ℝ`
since it uses `10^x` and `log10`. -/

/-- `convertAbsorbanceTransmittance`: identical modes return the data
unchanged; `A → %T` clamps to `[0, 10]` then applies `10^(-A)·100`;
`%T → A` clamps to `[0.01, 100]` then applies `-log10(T/100)`. -/
noncomputable def convertAbsorbanceTransmittance (yData : List ℝ)
    (fromMode toMode : DataMode) : List ℝ :=
  if fromMode = toMode then yData
  else
    match fromMode, toMode with
    | DataMode.absorbance, DataMode.transmittance =>
      yData.map fun absorbance => (10 : ℝ) ^ (-(max 0 (min 10 absorbance))) * 100
    | DataMode.transmittance, DataMode.absorbance =>
      yData.map fun transmittance =>
        -(Real.logb 10 (max (1 / 100) (min 100 transmittance) / 100))
    | _, _ => yData

/-! Length and termination lemmas for the solver and the ALS loop. -/

theorem matVec_length (A : Matrix) (v : List ℚ) : (matVec A v).length = A.rows := by
  simp [matVec]

theorem cgLoop_x_length (A : Matrix) :
    ∀ fuel s, s.x.length = A.rows → s.r.length = A.rows → s.p.length = A.rows →
      ((cgLoop A fuel s).x.length = A.rows ∧ (cgLoop A fuel s).r.length = A.rows ∧
        (cgLoop A fuel s).p.length = A.rows)
  | 0, s, hx, hr, hp => by simpa [cgLoop] using ⟨hx, hr, hp⟩
  | fuel + 1, s, hx, hr, hp => by
    have hX2 : (cgX2 A s).length = A.rows := by
      simp [cgX2, hx, hp]
    have hNR : (cgNewR A s).length = A.rows := by
      simp [cgNewR, hr, cgAp, matVec_length]
    have hP2 : (cgP2 A s).length = A.rows := by
      simp [cgP2, hNR, hp]
    by_cases h1 : |cgPTAp A s| < cgEps
    · simpa [cgLoop, h1] using ⟨hx, hr, hp⟩
    · by_cases h2 : cgNewRTR A s < cgEps
      · simpa [cgLoop, h1, h2] using ⟨hX2, hNR, hp⟩
      · simpa [cgLoop, h1, h2] using
          cgLoop_x_length A fuel ⟨cgX2 A s, cgNewR A s, cgP2 A s⟩ hX2 hNR hP2

theorem solveLinearSystem_length (A : Matrix) (b : List ℚ) (hb : b.length = A.rows) :
    (solveLinearSystem A b).length = A.rows := by
  have := cgLoop_x_length A (min A.rows 50) ⟨List.replicate A.rows 0, b, b⟩
    (by simp) (by simpa using hb) (by simpa using hb)
  simpa [solveLinearSystem] using this.1

theorem cgCount_le (A : Matrix) : ∀ fuel s, cgCount A fuel s ≤ fuel
  | 0, _ => le_refl 0
  | fuel + 1, s => by
    simp only [cgCount]
    split
    · omega
    · split
      · omega
      · have := cgCount_le A fuel ⟨cgX2 A s, cgNewR A s, cgP2 A s⟩
        omega

theorem alsIter_length (lambda p : ℚ) (y : List ℚ) (DTD : Matrix) :
    ∀ fuel w baseline, w.length = y.length → baseline.length = y.length →
      (alsIter lambda p y DTD fuel w baseline).length = y.length
  | 0, _, _, _, hb => hb
  | fuel + 1, w, baseline, hw, hb => by
    have hbl : (solveLinearSystem
        (Matrix.ofFn y.length y.length
          fun i j => (Matrix.diagonal w).get i j + lambda * DTD.get i j)
        (List.zipWith (· * ·) w y)).length = y.length := by
      have hrows : (Matrix.ofFn y.length y.length
          fun i j => (Matrix.diagonal w).get i j + lambda * DTD.get i j).rows = y.length := rfl
      rw [solveLinearSystem_length _ _
        (by rw [List.length_zipWith, hw, Nat.min_self, hrows])]
      exact hrows
    have hw2 : (List.zipWith (fun yi zi => if zi ≤ yi then p else 1 - p) y
        (solveLinearSystem
          (Matrix.ofFn y.length y.length
            fun i j => (Matrix.diagonal w).get i j + lambda * DTD.get i j)
          (List.zipWith (· * ·) w y))).length = y.length := by
      simp [hbl]
    simp only [alsIter]
    split
    · exact hbl
    · exact alsIter_length lambda p y DTD fuel _ _ hw2 hbl

/-- C1.  For every input `y` (of the lengths the TypeScript code accepts
without a runtime error, i.e. `2 ≤ len(y)`) and all parameters, the output of
`alsBaselineCorrection` satisfies `corrected[i] = max(0, y[i] - baseline[i])`
at every index, and `corrected` and `baseline` both have the length of `y`. -/
theorem alsBaselineCorrection_corrected_spec (y : List ℚ) (lambda p : ℚ)
    (maxIterations : Nat) (h : 2 ≤ y.length) :
    (alsBaselineCorrection y lambda p maxIterations).1.length = y.length ∧
    (alsBaselineCorrection y lambda p maxIterations).2.length = y.length ∧
    ∀ i, i < y.length →
      (alsBaselineCorrection y lambda p maxIterations).1.getD i 0 =
        max 0 (y.getD i 0 -
          (alsBaselineCorrection y lambda p maxIterations).2.getD i 0) := by
  have hbl2 : (alsIter lambda p y
      ((createDifferenceMatrix y.length 2).transpose.multiply
        (createDifferenceMatrix y.length 2)) maxIterations
      (List.replicate y.length 1) y).length = y.length :=
    alsIter_length lambda p y _ maxIterations _ _ (by simp) rfl
  refine ⟨?_, ?_, ?_⟩
  · simp only [alsBaselineCorrection]
    rw [List.length_zipWith, hbl2, Nat.min_self]
  · simpa [alsBaselineCorrection] using hbl2
  · intro i hi
    simp only [alsBaselineCorrection]
    have h1 : i < (List.zipWith (fun val bi => max 0 (val - bi)) y
        (alsIter lambda p y
          ((createDifferenceMatrix y.length 2).transpose.multiply
            (createDifferenceMatrix y.length 2)) maxIterations
          (List.replicate y.length 1) y)).length := by
      rw [List.length_zipWith, hbl2, Nat.min_self]; exact hi
    rw [List.getD_eq_getElem _ _ h1, List.getElem_zipWith,
      List.getD_eq_getElem _ _ hi, List.getD_eq_getElem _ _ (by rw [hbl2]; exact hi)]

/-- Witness for C1 at `y = [0, 0]`, `λ = 1000`, `p = 1/100`, 10 iterations. -/
theorem alsBaselineCorrection_corrected_spec_witness :
    2 ≤ ([0, 0] : List ℚ).length ∧
      ((alsBaselineCorrection [0, 0] 1000 (1 / 100) 10).1.length =
          ([0, 0] : List ℚ).length ∧
        (alsBaselineCorrection [0, 0] 1000 (1 / 100) 10).2.length =
          ([0, 0] : List ℚ).length ∧
        ∀ i, i < ([0, 0] : List ℚ).length →
          (alsBaselineCorrection [0, 0] 1000 (1 / 100) 10).1.getD i 0 =
            max 0 (([0, 0] : List ℚ).getD i 0 -
              (alsBaselineCorrection [0, 0] 1000 (1 / 100) 10).2.getD i 0)) :=
  ⟨by decide, alsBaselineCorrection_corrected_spec [0, 0] 1000 (1 / 100) 10 (by decide)⟩

/-- C8.  `solveLinearSystem` always returns an iterate of full length `n`
(no exception), performs at most `min(n, 50)` iterations, stops immediately
(state unchanged) whenever `|pᵀAp| < 1e-12`, and when instead the updated
residual satisfies `newRᵀnewR < 1e-12` it returns the freshly updated iterate
after exactly that one iteration, for every remaining fuel. -/
theorem solveLinearSystem_iteration_spec (A : Matrix) (b : List ℚ)
    (hb : b.length = A.rows) :
    (solveLinearSystem A b).length = A.rows ∧
    cgIterations A b ≤ min A.rows 50 ∧
    (∀ fuel s, |cgPTAp A s| < cgEps → cgLoop A fuel s = s) ∧
    (∀ fuel s, cgEps ≤ |cgPTAp A s| → cgNewRTR A s < cgEps →
      cgLoop A (fuel + 1) s = ⟨cgX2 A s, cgNewR A s, s.p⟩ ∧
        cgCount A (fuel + 1) s = 1) := by
  refine ⟨solveLinearSystem_length A b hb, cgCount_le A _ _, ?_, ?_⟩
  · intro fuel s hstop
    cases fuel with
    | zero => rfl
    | succ fuel => simp [cgLoop, hstop]
  · intro fuel s h1 h2
    have h1n : ¬ |cgPTAp A s| < cgEps := not_lt.mpr h1
    exact ⟨by simp [cgLoop, h1n, h2], by simp [cgCount, h1n, h2]⟩

/-- Witness for C8 on the 1×1 system `[[1]]·x = [0]`. -/
theorem solveLinearSystem_iteration_spec_witness :
    ([(0 : ℚ)] : List ℚ).length = (Matrix.ofFn 1 1 fun _ _ => (1 : ℚ)).rows ∧
      (solveLinearSystem (Matrix.ofFn 1 1 fun _ _ => (1 : ℚ)) [0]).length =
        (Matrix.ofFn 1 1 fun _ _ => (1 : ℚ)).rows :=
  ⟨rfl, (solveLinearSystem_iteration_spec (Matrix.ofFn 1 1 fun _ _ => (1 : ℚ)) [0] rfl).1⟩

/-! Properties of `detectPeaks`. -/

theorem peakCandidate_some_bounds (x y : List ℚ) (P : PeakParams) (valley : Bool)
    (maxI minI : ℚ) (peaks : List DetectedPeak) (i : Nat) (pk : DetectedPeak)
    (h : peakCandidate x y P valley maxI minI peaks i = some pk) :
    P.prominence * (maxI - minI) ≤ pk.prominence ∧
      ∃ w, pk.width = some w ∧ P.width ≤ w := by
  simp only [peakCandidate] at h
  repeat' split at h
  all_goals try exact Option.noConfusion h
  all_goals
    injection h with h
    subst h
    exact ⟨not_lt.mp (by assumption), _, rfl, not_lt.mp (by assumption)⟩

theorem detectPeaksLoop_mem_bounds (x y : List ℚ) (P : PeakParams) (valley : Bool)
    (maxI minI : ℚ) :
    ∀ pk ∈ detectPeaksLoop x y P valley maxI minI,
      P.prominence * (maxI - minI) ≤ pk.prominence ∧
        ∃ w, pk.width = some w ∧ P.width ≤ w := by
  have key : ∀ (l : List Nat) (acc : List DetectedPeak),
      (∀ pk ∈ acc, P.prominence * (maxI - minI) ≤ pk.prominence ∧
        ∃ w, pk.width = some w ∧ P.width ≤ w) →
      ∀ pk ∈ l.foldl
        (fun peaks i => peaks ++ (peakCandidate x y P valley maxI minI peaks i).toList) acc,
        P.prominence * (maxI - minI) ≤ pk.prominence ∧
          ∃ w, pk.width = some w ∧ P.width ≤ w := by
    intro l
    induction l with
    | nil => intro acc hacc pk hpk; exact hacc pk hpk
    | cons i is ih =>
      intro acc hacc pk hpk
      refine ih (acc ++ (peakCandidate x y P valley maxI minI acc i).toList) ?_ pk hpk
      intro q hq
      rcases List.mem_append.mp hq with hmem | hmem
      · exact hacc q hmem
      · cases heq : peakCandidate x y P valley maxI minI acc i with
        | none => rw [heq] at hmem; exact absurd hmem (by simp)
        | some r =>
          rw [heq] at hmem
          simp only [Option.toList_some, List.mem_singleton] at hmem
          subst hmem
          exact peakCandidate_some_bounds x y P valley maxI minI acc i q heq
  exact key _ [] (by intro pk hpk; exact absurd hpk (by simp))

/-- C2.  Every peak returned by the full `detectPeaks` has
`prominence ≥ prominence_param · (max(y) − min(y))` and
`width ≥ width_param`, and the returned list is sorted by descending
prominence. -/
theorem detectPeaks_bounds_sorted (x y : List ℚ) (P : PeakParams) :
    (∀ pk ∈ detectPeaks x y P,
      P.prominence * (jsMaxList y - jsMinList y) ≤ pk.prominence ∧
        ∃ w, pk.width = some w ∧ P.width ≤ w) ∧
    (detectPeaks x y P).Pairwise (fun a b => b.prominence ≤ a.prominence) := by
  by_cases hg : x.length ≠ y.length ∨ x.length < 3
  · constructor
    · intro pk hpk
      rw [detectPeaks, if_pos hg] at hpk
      exact absurd hpk (by simp)
    · rw [detectPeaks, if_pos hg]
      exact List.Pairwise.nil
  · have hunfold : detectPeaks x y P =
        List.mergeSort (detectPeaksLoop x y P (shouldDetectValleys P) (jsMaxList y) (jsMinList y))
          (fun a b => decide (b.prominence ≤ a.prominence)) := by
      rw [detectPeaks, if_neg hg]
    constructor
    · intro pk hpk
      rw [hunfold] at hpk
      exact detectPeaksLoop_mem_bounds x y P _ _ _ pk (List.mem_mergeSort.mp hpk)
    · rw [hunfold]
      have hs : (List.mergeSort
            (detectPeaksLoop x y P (shouldDetectValleys P) (jsMaxList y) (jsMinList y))
            (fun a b => decide (b.prominence ≤ a.prominence))).Pairwise
          (fun a b => decide (b.prominence ≤ a.prominence) = true) :=
        List.sorted_mergeSort
          (by intro a b c h1 h2
              simp only [decide_eq_true_eq] at h1 h2 ⊢
              exact le_trans h2 h1)
          (by intro a b
              rcases le_total a.prominence b.prominence with h | h <;> simp [h])
          _
      exact hs.imp (fun h => of_decide_eq_true h)

/-- C3.  On malformed input (mismatched lengths or fewer than three points)
`detectPeaks` returns the empty list (the embedding is total, so no
exception can occur). -/
theorem detectPeaks_malformed (x y : List ℚ) (P : PeakParams)
    (h : x.length ≠ y.length ∨ x.length < 3) :
    detectPeaks x y P = [] := by
  rw [detectPeaks, if_pos h]

/-- Witness for C3 on mismatched input `x = [0], y = []`. -/
theorem detectPeaks_malformed_witness :
    (([(0 : ℚ)] : List ℚ).length ≠ ([] : List ℚ).length ∨ ([(0 : ℚ)] : List ℚ).length < 3) ∧
      detectPeaks [(0 : ℚ)] [] {} = [] :=
  ⟨by decide, detectPeaks_malformed [(0 : ℚ)] [] {} (by decide)⟩

/-- C10.  `detectPeaksSimplified` returns the empty list whenever the input
is shorter than `2·windowSize + 1` points, for any parameters (total, so it
never raises). -/
theorem detectPeaksSimplified_short_input (x y : List ℚ) (P : SimplePeakParams)
    (h : x.length < P.windowSize * 2 + 1) :
    detectPeaksSimplified x y P = [] := by
  rw [detectPeaksSimplified, if_pos (Or.inr h)]

/-- Witness for C10: ten points are rejected at the default window size 5. -/
theorem detectPeaksSimplified_short_input_witness :
    (([0, 1, 2, 3, 4, 5, 6, 7, 8, 9] : List ℚ).length < ({} : SimplePeakParams).windowSize * 2 + 1) ∧
      detectPeaksSimplified [0, 1, 2, 3, 4, 5, 6, 7, 8, 9] [0, 1, 2, 0, 1, 2, 0, 1, 2, 0] {} = [] :=
  ⟨by decide,
    detectPeaksSimplified_short_input [0, 1, 2, 3, 4, 5, 6, 7, 8, 9]
      [0, 1, 2, 0, 1, 2, 0, 1, 2, 0] {} (by decide)⟩

/-! Scan specifications. -/

theorem scanUp_some_spec (p : Nat → Bool) :
    ∀ fuel j r, scanUp p fuel j = some r →
      j ≤ r ∧ r < j + fuel ∧ p r = true ∧ ∀ k, j ≤ k → k < r → p k = false
  | 0, j, r, h => by simp [scanUp] at h
  | fuel + 1, j, r, h => by
    by_cases hp : p j
    · simp only [scanUp, if_pos hp] at h
      injection h with h
      subst h
      exact ⟨le_refl _, by omega, hp, fun k hk1 hk2 => absurd hk1 (by omega)⟩
    · simp only [scanUp, if_neg hp] at h
      obtain ⟨h1, h2, h3, h4⟩ := scanUp_some_spec p fuel (j + 1) r h
      refine ⟨by omega, by omega, h3, ?_⟩
      intro k hk1 hk2
      rcases eq_or_lt_of_le hk1 with rfl | hlt
      · simp only [Bool.not_eq_true] at hp; exact hp
      · exact h4 k (by omega) hk2

theorem scanUp_isSome (p : Nat → Bool) :
    ∀ fuel j k, j ≤ k → k < j + fuel → p k = true → (scanUp p fuel j).isSome = true
  | 0, _, k, h1, h2, _ => absurd h2 (by omega)
  | fuel + 1, j, k, h1, h2, h3 => by
    by_cases hp : p j
    · simp [scanUp, hp]
    · simp only [scanUp, if_neg hp]
      have hjk : j ≠ k := by rintro rfl; rw [h3] at hp; exact hp rfl
      exact scanUp_isSome p fuel (j + 1) k (by omega) (by omega) h3

theorem scanDown_some_spec (p : Nat → Bool) :
    ∀ j r, scanDown p j = some r → r ≤ j ∧ p r = true ∧ ∀ k, r < k → k ≤ j → p k = false
  | 0, r, h => by
    by_cases hp : p 0
    · simp only [scanDown, if_pos hp] at h
      injection h with h
      subst h
      exact ⟨le_refl 0, hp, fun k hk1 hk2 => absurd hk1 (by omega)⟩
    · simp [scanDown, hp] at h
  | j + 1, r, h => by
    by_cases hp : p (j + 1)
    · simp only [scanDown, if_pos hp] at h
      injection h with h
      subst h
      exact ⟨le_refl _, hp, fun k hk1 hk2 => absurd hk1 (by omega)⟩
    · simp only [scanDown, if_neg hp] at h
      obtain ⟨h1, h2, h3⟩ := scanDown_some_spec p j r h
      refine ⟨by omega, h2, ?_⟩
      intro k hk1 hk2
      rcases eq_or_lt_of_le hk2 with rfl | hlt
      · simp only [Bool.not_eq_true] at hp; exact hp
      · exact h3 k hk1 (by omega)

theorem scanDown_isSome (p : Nat → Bool) :
    ∀ j k, k ≤ j → p k = true → (scanDown p j).isSome = true
  | 0, k, h1, h2 => by
    have hk : k = 0 := by omega
    subst hk
    simp [scanDown, h2]
  | j + 1, k, h1, h2 => by
    by_cases hp : p (j + 1)
    · simp [scanDown, hp]
    · have hk : k ≠ j + 1 := by rintro rfl; rw [h2] at hp; exact hp rfl
      simp only [scanDown, if_neg hp]
      exact scanDown_isSome p j k (by omega) h2

theorem firstIdxWhere_spec (p : Nat → Bool) (n : Nat)
    (hex : ∃ k, k < n ∧ p k = true) :
    firstIdxWhere p n < n ∧ p (firstIdxWhere p n) = true ∧
      ∀ k, k < firstIdxWhere p n → p k = false := by
  obtain ⟨k, hk, hpk⟩ := hex
  obtain ⟨r, hr⟩ := Option.isSome_iff_exists.mp (scanUp_isSome p n 0 k (by omega) (by omega) hpk)
  obtain ⟨h1, h2, h3, h4⟩ := scanUp_some_spec p n 0 r hr
  rw [firstIdxWhere, hr]
  simp only [Option.getD_some]
  exact ⟨by omega, h3, fun k2 hk2 => h4 k2 (by omega) hk2⟩

theorem lastIdxWhere_spec (p : Nat → Bool) (n : Nat) (hn : 0 < n)
    (hex : ∃ k, k < n ∧ p k = true) :
    lastIdxWhere p n < n ∧ p (lastIdxWhere p n) = true ∧
      ∀ k, lastIdxWhere p n < k → k < n → p k = false := by
  obtain ⟨k, hk, hpk⟩ := hex
  obtain ⟨r, hr⟩ := Option.isSome_iff_exists.mp (scanDown_isSome p (n - 1) k (by omega) hpk)
  obtain ⟨h1, h2, h3⟩ := scanDown_some_spec p (n - 1) r hr
  rw [lastIdxWhere, hr]
  simp only [Option.getD_some]
  exact ⟨by omega, h2, fun k2 hk1 hk2 => h3 k2 hk1 (by omega)⟩

/-! Monotone access along a sorted axis. -/

theorem getD_mono_of_pairwise_lt (x : List ℚ) (h : x.Pairwise (· < ·)) {i j : Nat}
    (hij : i ≤ j) (hj : j < x.length) : x.getD i 0 ≤ x.getD j 0 := by
  rcases eq_or_lt_of_le hij with rfl | hlt
  · exact le_refl _
  · have hi : i < x.length := lt_trans hlt hj
    rw [List.getD_eq_getElem _ _ hi, List.getD_eq_getElem _ _ hj]
    exact le_of_lt (List.pairwise_iff_getElem.mp h i j hi hj hlt)

theorem getD_anti_of_pairwise_gt (x : List ℚ) (h : x.Pairwise (· > ·)) {i j : Nat}
    (hij : i ≤ j) (hj : j < x.length) : x.getD j 0 ≤ x.getD i 0 := by
  rcases eq_or_lt_of_le hij with rfl | hlt
  · exact le_refl _
  · have hi : i < x.length := lt_trans hlt hj
    rw [List.getD_eq_getElem _ _ hi, List.getD_eq_getElem _ _ hj]
    exact le_of_lt (List.pairwise_iff_getElem.mp h i j hi hj hlt)

theorem ascendingIndices_iff (x : List ℚ) (s e : ℚ) (hsort : x.Pairwise (· < ·))
    (hs : ∃ i, i < x.length ∧ s ≤ x.getD i 0)
    (he : ∃ i, i < x.length ∧ x.getD i 0 ≤ e) :
    ∀ i, i < x.length →
      ((calcManualIndicesRaw x s e).1 ≤ i ∧ i ≤ (calcManualIndicesRaw x s e).2 ↔
        s ≤ x.getD i 0 ∧ x.getD i 0 ≤ e) := by
  obtain ⟨i0, hi0, hs0⟩ := hs
  obtain ⟨i1, hi1, he1⟩ := he
  have hn : 0 < x.length := by omega
  obtain ⟨hsi_lt, hsi_p, hsi_min⟩ :=
    firstIdxWhere_spec (fun i => decide (s ≤ x.getD i 0)) x.length ⟨i0, hi0, by simpa using hs0⟩
  obtain ⟨hei_lt, hei_p, hei_max⟩ :=
    lastIdxWhere_spec (fun i => decide (x.getD i 0 ≤ e)) x.length hn ⟨i1, hi1, by simpa using he1⟩
  intro i hi
  simp only [calcManualIndicesRaw]
  constructor
  · rintro ⟨h1, h2⟩
    refine ⟨le_trans (by simpa using hsi_p) (getD_mono_of_pairwise_lt x hsort h1 hi), ?_⟩
    exact le_trans (getD_mono_of_pairwise_lt x hsort h2 hei_lt) (by simpa using hei_p)
  · rintro ⟨h1, h2⟩
    constructor
    · by_contra hcon
      push_neg at hcon
      have := hsi_min i hcon
      simp only [decide_eq_false_iff_not, not_le] at this
      exact absurd h1 (not_le.mpr this)
    · by_contra hcon
      push_neg at hcon
      have := hei_max i hcon hi
      simp only [decide_eq_false_iff_not, not_le] at this
      exact absurd h2 (not_le.mpr this)

theorem descendingIndices_iff (x : List ℚ) (s e : ℚ) (hsort : x.Pairwise (· > ·))
    (hs : ∃ i, i < x.length ∧ x.getD i 0 ≤ max s e)
    (he : ∃ i, i < x.length ∧ min s e ≤ x.getD i 0) :
    ∀ i, i < x.length →
      ((recalcIndicesRaw x s e).1 ≤ i ∧ i ≤ (recalcIndicesRaw x s e).2 ↔
        min s e ≤ x.getD i 0 ∧ x.getD i 0 ≤ max s e) := by
  obtain ⟨i0, hi0, hs0⟩ := hs
  obtain ⟨i1, hi1, he1⟩ := he
  have hn : 0 < x.length := by omega
  have hdesc : ¬ (x.getD 0 0 < x.getD (x.length - 1) 0) :=
    not_lt.mpr (getD_anti_of_pairwise_gt x hsort (Nat.zero_le _) (by omega))
  obtain ⟨hsi_lt, hsi_p, hsi_min⟩ :=
    firstIdxWhere_spec (fun i => decide (x.getD i 0 ≤ max s e)) x.length
      ⟨i0, hi0, by simpa using hs0⟩
  obtain ⟨hei_lt, hei_p, hei_max⟩ :=
    lastIdxWhere_spec (fun i => decide (min s e ≤ x.getD i 0)) x.length hn
      ⟨i1, hi1, by simpa using he1⟩
  intro i hi
  simp only [recalcIndicesRaw, if_neg hdesc]
  constructor
  · rintro ⟨h1, h2⟩
    refine ⟨le_trans (by simpa using hei_p) (getD_anti_of_pairwise_gt x hsort h2 hei_lt), ?_⟩
    exact le_trans (getD_anti_of_pairwise_gt x hsort h1 hi) (by simpa using hsi_p)
  · rintro ⟨h1, h2⟩
    constructor
    · by_contra hcon
      push_neg at hcon
      have := hsi_min i hcon
      simp only [decide_eq_false_iff_not, not_le] at this
      exact absurd h2 (not_le.mpr this)
    · by_contra hcon
      push_neg at hcon
      have := hei_max i hcon hi
      simp only [decide_eq_false_iff_not, not_le] at this
      exact absurd h1 (not_le.mpr this)

/-- C5 (amended).  The boundary-to-index mapping `first index with
x ≥ start / last index with x ≤ end` (shared by `calculatePeakArea` and the
ascending branch of `recalculateIntegrationForPeak`) selects exactly the
enclosed index range on strictly ascending axes; only
`recalculateIntegrationForPeak` detects direction by comparing `x[0]` with
`x[last]`, and its descending branch (first index with `x ≤ max(start, end)`,
last index with `x ≥ min(start, end)`) selects exactly the enclosed range on
strictly descending axes; collapsed index pairs are widened by one on each
side where possible. -/
theorem boundaryIndexMapping_spec :
    (∀ (x : List ℚ) (s e : ℚ), x.Pairwise (· < ·) →
      (∃ i, i < x.length ∧ s ≤ x.getD i 0) →
      (∃ i, i < x.length ∧ x.getD i 0 ≤ e) →
      ∀ i, i < x.length →
        ((calcManualIndicesRaw x s e).1 ≤ i ∧ i ≤ (calcManualIndicesRaw x s e).2 ↔
          s ≤ x.getD i 0 ∧ x.getD i 0 ≤ e)) ∧
    (∀ (x : List ℚ) (s e : ℚ), x.getD 0 0 < x.getD (x.length - 1) 0 →
      recalcIndicesRaw x s e = calcManualIndicesRaw x s e) ∧
    (∀ (x : List ℚ) (s e : ℚ), x.Pairwise (· > ·) →
      (∃ i, i < x.length ∧ x.getD i 0 ≤ max s e) →
      (∃ i, i < x.length ∧ min s e ≤ x.getD i 0) →
      ∀ i, i < x.length →
        ((recalcIndicesRaw x s e).1 ≤ i ∧ i ≤ (recalcIndicesRaw x s e).2 ↔
          min s e ≤ x.getD i 0 ∧ x.getD i 0 ≤ max s e)) ∧
    (∀ n si ei : Nat,
      (ei ≤ si → collapseWiden n si ei =
        ((if 0 < si then si - 1 else si), (if ei < n - 1 then ei + 1 else ei))) ∧
      (si < ei → collapseWiden n si ei = (si, ei))) := by
  refine ⟨ascendingIndices_iff, ?_, descendingIndices_iff, ?_⟩
  · intro x s e hasc
    rw [recalcIndicesRaw, if_pos hasc]
  · intro n si ei
    constructor
    · intro hcol
      rw [collapseWiden, if_pos hcol]
    · intro hlt
      rw [collapseWiden, if_neg (by omega)]

/-- Witness for C5 on the ascending axis `[0, 1, 2, 3, 4]` with boundaries
`(1, 3)` at index 2. -/
theorem boundaryIndexMapping_spec_witness :
    ([0, 1, 2, 3, 4] : List ℚ).Pairwise (· < ·) ∧
      (((calcManualIndicesRaw [0, 1, 2, 3, 4] 1 3).1 ≤ 2 ∧
          2 ≤ (calcManualIndicesRaw [0, 1, 2, 3, 4] 1 3).2) ↔
        ((1 : ℚ) ≤ ([0, 1, 2, 3, 4] : List ℚ).getD 2 0 ∧
          ([0, 1, 2, 3, 4] : List ℚ).getD 2 0 ≤ 3)) :=
  ⟨by decide,
    boundaryIndexMapping_spec.1 [0, 1, 2, 3, 4] 1 3 (by decide)
      ⟨1, by decide⟩ ⟨1, by decide⟩ 2 (by decide)⟩

/-- Counterexample for C5 as frozen: on the descending axis
`x = [4, 3, 2, 1, 0]` with boundaries `(1, 3)`, the `calculatePeakArea`
mapping (which has no direction detection) selects indices `(0, 4)` even
though `x[0] = 4` lies outside `[1, 3]`, so it does not select the enclosed
index range, and its area differs from the direction-aware
`recalculateIntegrationForPeak` on the same data and boundaries. -/
theorem calcManualIndices_descending_counterexample :
    calcManualIndices [4, 3, 2, 1, 0] 1 3 = (0, 4) ∧
      ¬ (([4, 3, 2, 1, 0] : List ℚ).getD 0 0 ≤ 3) ∧
      calculatePeakAreaManual [4, 3, 2, 1, 0] [7, 0, 5, 0, 0] 1 3 ≠
        recalculateIntegrationForPeak [4, 3, 2, 1, 0] [7, 0, 5, 0, 0] 1 3 := by
  refine ⟨by decide, by decide, ?_⟩
  have h1 : calculatePeakAreaManual [4, 3, 2, 1, 0] [7, 0, 5, 0, 0] 1 3 = 17 / 2 := by
    norm_num [calculatePeakAreaManual, areaAtIndices, calcManualIndices, calcManualIndicesRaw,
      collapseWiden, firstIdxWhere, lastIdxWhere, scanUp, scanDown, trapezoidSum, List.range']
  have h2 : recalculateIntegrationForPeak [4, 3, 2, 1, 0] [7, 0, 5, 0, 0] 1 3 = 5 := by
    norm_num [recalculateIntegrationForPeak, areaAtIndices, recalcIndices, recalcIndicesRaw,
      collapseWiden, firstIdxWhere, lastIdxWhere, scanUp, scanDown, trapezoidSum, List.range']
  rw [h1, h2]
  norm_num

/-! The trapezoidal area and its direction invariance. -/

theorem list_range'_map_sum (f : Nat → ℚ) :
    ∀ cnt s, ((List.range' s cnt).map f).sum = ∑ i in Finset.Ico s (s + cnt), f i
  | 0, s => by simp
  | cnt + 1, s => by
    rw [List.range'_succ]
    simp only [List.map_cons, List.sum_cons]
    rw [list_range'_map_sum f cnt (s + 1)]
    rw [Finset.sum_eq_sum_Ico_succ_bot (by omega : s < s + (cnt + 1))]
    have harith : s + (cnt + 1) = (s + 1) + cnt := by omega
    rw [harith]

theorem trapezoidSum_eq_sum (x y : List ℚ) (si ei : Nat) :
    trapezoidSum x y si ei = ∑ i in Finset.Ico si ei,
      (if i + 1 < x.length then
        (y.getD i 0 + y.getD (i + 1) 0) / 2 * (x.getD (i + 1) 0 - x.getD i 0) else 0) := by
  rw [trapezoidSum, list_range'_map_sum]
  rcases le_total si ei with h | h
  · have : si + (ei - si) = ei := by omega
    rw [this]
  · rw [Finset.Ico_eq_empty (by omega), Finset.Ico_eq_empty (by omega)]

theorem getD_reverse (l : List ℚ) (k : Nat) (hk : k < l.length) :
    l.reverse.getD k 0 = l.getD (l.length - 1 - k) 0 := by
  rw [List.getD_eq_getElem _ _ (by simpa using hk), List.getD_eq_getElem _ _ (by omega)]
  exact List.getElem_reverse _

/-- C6.  Over a fixed boundary index pair the computed integration area is
the absolute value of the trapezoidal sum `Σ (y[i]+y[i+1])/2 · (x[i+1]-x[i])`,
hence non-negative, and reversing the direction of the x axis (reversing
both `x` and `y`, with the boundary pair mirrored to the same data window)
yields the same area. -/
theorem areaAtIndices_trapezoid_nonneg_direction (x y : List ℚ) (si ei n : Nat)
    (hx : x.length = n) (hy : y.length = n) (hse : si ≤ ei) (hei : ei < n) :
    areaAtIndices x y si ei =
      |∑ i in Finset.Ico si ei,
        (if i + 1 < x.length then
          (y.getD i 0 + y.getD (i + 1) 0) / 2 * (x.getD (i + 1) 0 - x.getD i 0) else 0)| ∧
    0 ≤ areaAtIndices x y si ei ∧
    areaAtIndices x.reverse y.reverse (n - 1 - ei) (n - 1 - si) = areaAtIndices x y si ei := by
  refine ⟨by rw [areaAtIndices, trapezoidSum_eq_sum], abs_nonneg _, ?_⟩
  rw [areaAtIndices, areaAtIndices, trapezoidSum_eq_sum, trapezoidSum_eq_sum]
  have hrefl := Finset.sum_Ico_reflect
    (fun j => (if j + 1 < x.reverse.length then
      (y.reverse.getD j 0 + y.reverse.getD (j + 1) 0) / 2 *
        (x.reverse.getD (j + 1) 0 - x.reverse.getD j 0) else 0))
    si (show ei ≤ (n - 2) + 1 by omega)
  have hico : Finset.Ico (n - 1 - ei) (n - 1 - si) =
      Finset.Ico ((n - 2) + 1 - ei) ((n - 2) + 1 - si) := by
    rcases Nat.lt_or_ge n 2 with h2 | h2
    · rw [Finset.Ico_eq_empty (by omega), Finset.Ico_eq_empty (by omega)]
    · congr 1 <;> omega
  rw [hico, ← hrefl]
  have key : ∑ j in Finset.Ico si ei,
      (if (n - 2) - j + 1 < x.reverse.length then
        (y.reverse.getD ((n - 2) - j) 0 + y.reverse.getD ((n - 2) - j + 1) 0) / 2 *
          (x.reverse.getD ((n - 2) - j + 1) 0 - x.reverse.getD ((n - 2) - j) 0) else 0) =
      ∑ j in Finset.Ico si ei,
        -(if j + 1 < x.length then
          (y.getD j 0 + y.getD (j + 1) 0) / 2 * (x.getD (j + 1) 0 - x.getD j 0) else 0) := by
    apply Finset.sum_congr rfl
    intro j hj
    rw [Finset.mem_Ico] at hj
    have hjn : j + 1 < n := by omega
    have hj2 : j ≤ n - 2 := by omega
    have hc1 : (n - 2) - j + 1 < x.reverse.length := by
      simp only [List.length_reverse, hx]; omega
    rw [if_pos hc1, if_pos (by omega : j + 1 < x.length)]
    have e1 : (n - 2) - j + 1 = n - 1 - j := by omega
    rw [e1]
    rw [getD_reverse x _ (by omega), getD_reverse x _ (by omega),
      getD_reverse y _ (by omega), getD_reverse y _ (by omega)]
    have e2 : x.length - 1 - (n - 2 - j) = j + 1 := by omega
    have e3 : x.length - 1 - (n - 1 - j) = j := by omega
    have e4 : y.length - 1 - (n - 2 - j) = j + 1 := by omega
    have e5 : y.length - 1 - (n - 1 - j) = j := by omega
    rw [e2, e3, e4, e5]
    ring
  rw [key, Finset.sum_neg_distrib, abs_neg]

/-- Witness for C6 at `x = [0, 1, 2]`, `y = [1, 2, 3]`, indices `(0, 2)`. -/
theorem areaAtIndices_trapezoid_witness :
    (([0, 1, 2] : List ℚ).length = 3 ∧ ([1, 2, 3] : List ℚ).length = 3 ∧ 0 ≤ 2 ∧ 2 < 3) ∧
      (areaAtIndices [0, 1, 2] [1, 2, 3] 0 2 =
          |∑ i in Finset.Ico 0 2,
            (if i + 1 < ([0, 1, 2] : List ℚ).length then
              (([1, 2, 3] : List ℚ).getD i 0 + ([1, 2, 3] : List ℚ).getD (i + 1) 0) / 2 *
                (([0, 1, 2] : List ℚ).getD (i + 1) 0 - ([0, 1, 2] : List ℚ).getD i 0) else 0)| ∧
        0 ≤ areaAtIndices [0, 1, 2] [1, 2, 3] 0 2 ∧
        areaAtIndices ([0, 1, 2] : List ℚ).reverse ([1, 2, 3] : List ℚ).reverse
            (3 - 1 - 2) (3 - 1 - 0) =
          areaAtIndices [0, 1, 2] [1, 2, 3] 0 2) :=
  ⟨⟨rfl, rfl, by omega, by omega⟩,
    areaAtIndices_trapezoid_nonneg_direction [0, 1, 2] [1, 2, 3] 0 2 3 rfl rfl
      (by omega) (by omega)⟩

/-- C4.  In the two-click protocol, a second click within `0.01` of the
start boundary is rejected: the state (step `'end'` and both boundaries)
is unchanged.  Any other second click sets the boundaries to the ordered
pair `(min, max)` with strictly `start < end`, marks the peak manually
adjusted, and returns the machine to idle. -/
theorem handlePlotClickBoundary_second_click (st : BoundaryMachine) (clickX s0 : ℚ)
    (hstep : st.step = some BoundaryStep.settingEnd)
    (hs : st.integrationStart = some s0) (he : ∃ e0, st.integrationEnd = some e0) :
    (|clickX - s0| < 1 / 100 → handlePlotClickBoundary st clickX = st) ∧
    (¬ |clickX - s0| < 1 / 100 →
      ∃ a b, (handlePlotClickBoundary st clickX).integrationStart = some a ∧
        (handlePlotClickBoundary st clickX).integrationEnd = some b ∧ a < b ∧
        (handlePlotClickBoundary st clickX).manuallyAdjusted = true ∧
        (handlePlotClickBoundary st clickX).step = none) := by
  obtain ⟨e0, he0⟩ := he
  obtain ⟨step, istart, iend, madj⟩ := st
  simp only at hstep hs he0
  subst hstep hs he0
  constructor
  · intro hclose
    simp only [handlePlotClickBoundary, if_pos hclose]
  · intro hfar
    have hred : handlePlotClickBoundary
        ⟨some BoundaryStep.settingEnd, some s0, some e0, madj⟩ clickX =
        { step := none, integrationStart := some (min s0 clickX),
          integrationEnd := some (max s0 clickX), manuallyAdjusted := true } := by
      simp only [handlePlotClickBoundary, if_neg hfar]
    refine ⟨min s0 clickX, max s0 clickX, by rw [hred], by rw [hred], ?_, by rw [hred],
      by rw [hred]⟩
    exact min_lt_max.mpr (by
      intro heq
      rw [heq, sub_self, abs_zero] at hfar
      norm_num at hfar)

/-- Witness for C4: with start boundary `0` (previous end `5`), an accepted
second click at `2` and a rejected one within tolerance. -/
theorem handlePlotClickBoundary_second_click_witness :
    (BoundaryMachine.mk (some BoundaryStep.settingEnd) (some 0) (some 5) false).step =
        some BoundaryStep.settingEnd ∧
      ((|(2 : ℚ) - 0| < 1 / 100 →
          handlePlotClickBoundary
            (BoundaryMachine.mk (some BoundaryStep.settingEnd) (some 0) (some 5) false) 2 =
            BoundaryMachine.mk (some BoundaryStep.settingEnd) (some 0) (some 5) false) ∧
        (¬ |(2 : ℚ) - 0| < 1 / 100 →
          ∃ a b, (handlePlotClickBoundary
              (BoundaryMachine.mk (some BoundaryStep.settingEnd) (some 0) (some 5) false)
              2).integrationStart = some a ∧
            (handlePlotClickBoundary
              (BoundaryMachine.mk (some BoundaryStep.settingEnd) (some 0) (some 5) false)
              2).integrationEnd = some b ∧ a < b ∧
            (handlePlotClickBoundary
              (BoundaryMachine.mk (some BoundaryStep.settingEnd) (some 0) (some 5) false)
              2).manuallyAdjusted = true ∧
            (handlePlotClickBoundary
              (BoundaryMachine.mk (some BoundaryStep.settingEnd) (some 0) (some 5) false)
              2).step = none)) :=
  ⟨rfl,
    handlePlotClickBoundary_second_click
      (BoundaryMachine.mk (some BoundaryStep.settingEnd) (some 0) (some 5) false) 2 0
      rfl rfl ⟨5, rfl⟩⟩

unseal Rat.mul Rat.add Rat.sub Rat.inv in
/-- Witness for C2 on the spec scenario `x = [0..4]`, `y = [0,1,5,1,0]`,
`prominence = 0.1`: the single detected peak at `x = 2`. -/
theorem detectPeaks_bounds_sorted_witness :
    scenarioPeak ∈ detectPeaks [0, 1, 2, 3, 4] [0, 1, 5, 1, 0] scenarioParams ∧
    (scenarioParams.prominence * (jsMaxList [0, 1, 5, 1, 0] - jsMinList [0, 1, 5, 1, 0]) ≤
        scenarioPeak.prominence ∧
      ∃ w, scenarioPeak.width = some w ∧ scenarioParams.width ≤ w) := by
  have hloop : detectPeaksLoop [0, 1, 2, 3, 4] [0, 1, 5, 1, 0] scenarioParams
      (shouldDetectValleys scenarioParams) (jsMaxList [0, 1, 5, 1, 0])
      (jsMinList [0, 1, 5, 1, 0]) = [scenarioPeak] := by decide
  have hmem : scenarioPeak ∈ detectPeaks [0, 1, 2, 3, 4] [0, 1, 5, 1, 0] scenarioParams := by
    rw [detectPeaks, if_neg (by decide)]
    exact List.mem_mergeSort.mpr (by rw [hloop]; exact List.mem_singleton.mpr rfl)
  exact ⟨hmem,
    (detectPeaks_bounds_sorted [0, 1, 2, 3, 4] [0, 1, 5, 1, 0] scenarioParams).1 _ hmem⟩

theorem rpow_neg_four_eq : (10 : ℝ) ^ (-(4 : ℝ)) = 1 / 10000 := by
  rw [Real.rpow_neg (by norm_num : (0 : ℝ) ≤ 10)]
  rw [show ((4 : ℝ)) = ((4 : ℕ) : ℝ) by norm_num, Real.rpow_natCast]
  norm_num

/-- C7.  Converting absorbance to transmittance and back (and the reverse)
is the identity on the sub-domains where no clamp is active: absorbance in
`[0, 4]` (the image of the transmittance clamp domain) and transmittance in
`[0.01, 100]`. -/
theorem convertAbsorbanceTransmittance_roundtrip (a t : ℝ)
    (ha0 : 0 ≤ a) (ha4 : a ≤ 4) (ht0 : 1 / 100 ≤ t) (ht1 : t ≤ 100) :
    convertAbsorbanceTransmittance
        (convertAbsorbanceTransmittance [a] DataMode.absorbance DataMode.transmittance)
        DataMode.transmittance DataMode.absorbance = [a] ∧
    convertAbsorbanceTransmittance
        (convertAbsorbanceTransmittance [t] DataMode.transmittance DataMode.absorbance)
        DataMode.absorbance DataMode.transmittance = [t] := by
  have h10 : (1 : ℝ) < 10 := by norm_num
  have hb0 : (0 : ℝ) < 10 := by norm_num
  have hbne : (10 : ℝ) ≠ 1 := by norm_num
  constructor
  · have hclampA : max 0 (min 10 a) = a := by
      rw [min_eq_right (by linarith), max_eq_right ha0]
    have hub : (10 : ℝ) ^ (-a) * 100 ≤ 100 := by
      have h1 : (10 : ℝ) ^ (-a) ≤ 1 :=
        Real.rpow_le_one_of_one_le_of_nonpos (by norm_num) (by linarith)
      calc (10 : ℝ) ^ (-a) * 100 ≤ 1 * 100 := mul_le_mul_of_nonneg_right h1 (by norm_num)
        _ = 100 := one_mul 100
    have hlb : (1 : ℝ) / 100 ≤ (10 : ℝ) ^ (-a) * 100 := by
      have h4 : (10 : ℝ) ^ (-(4 : ℝ)) ≤ (10 : ℝ) ^ (-a) :=
        (Real.rpow_le_rpow_left_iff h10).mpr (by linarith)
      rw [rpow_neg_four_eq] at h4
      calc (1 : ℝ) / 100 = (1 / 10000) * 100 := by norm_num
        _ ≤ (10 : ℝ) ^ (-a) * 100 := mul_le_mul_of_nonneg_right h4 (by norm_num)
    have key : -(Real.logb 10
        (max (1 / 100) (min 100 ((10 : ℝ) ^ (-(max 0 (min 10 a))) * 100)) / 100)) = a := by
      rw [hclampA, min_eq_right hub, max_eq_right hlb,
        mul_div_assoc, div_self (by norm_num : (100 : ℝ) ≠ 0), mul_one,
        Real.logb_rpow hb0 hbne, neg_neg]
    calc convertAbsorbanceTransmittance
          (convertAbsorbanceTransmittance [a] DataMode.absorbance DataMode.transmittance)
          DataMode.transmittance DataMode.absorbance
        = [-(Real.logb 10
            (max (1 / 100) (min 100 ((10 : ℝ) ^ (-(max 0 (min 10 a))) * 100)) / 100))] := by
          simp [convertAbsorbanceTransmittance]
      _ = [a] := by rw [key]
  · have hclampT : max (1 / 100) (min 100 t) = t := by
      rw [min_eq_right ht1, max_eq_right ht0]
    have htpos : (0 : ℝ) < t := lt_of_lt_of_le (by norm_num) ht0
    have hdivpos : (0 : ℝ) < t / 100 := div_pos htpos (by norm_num)
    have hlog_le : Real.logb 10 (t / 100) ≤ 0 :=
      Real.logb_nonpos h10 (by linarith) (by linarith)
    have hlog_ge : -(4 : ℝ) ≤ Real.logb 10 (t / 100) := by
      have harg : (10 : ℝ) ^ (-(4 : ℝ)) ≤ t / 100 := by
        rw [rpow_neg_four_eq]; linarith
      exact (Real.le_logb_iff_rpow_le h10 hdivpos).mpr harg
    have key : (10 : ℝ) ^
        (-(max 0 (min 10 (-(Real.logb 10 (max (1 / 100) (min 100 t) / 100)))))) * 100 = t := by
      rw [hclampT, min_eq_right (by linarith), max_eq_right (by linarith), neg_neg,
        Real.rpow_logb hb0 hbne hdivpos]
      field_simp
    calc convertAbsorbanceTransmittance
          (convertAbsorbanceTransmittance [t] DataMode.transmittance DataMode.absorbance)
          DataMode.absorbance DataMode.transmittance
        = [(10 : ℝ) ^
            (-(max 0 (min 10 (-(Real.logb 10 (max (1 / 100) (min 100 t) / 100)))))) * 100] := by
          simp [convertAbsorbanceTransmittance]
      _ = [t] := by rw [key]

/-- Witness for C7 at `A = 1` and `%T = 50`. -/
theorem convertAbsorbanceTransmittance_roundtrip_witness :
    ((0 : ℝ) ≤ 1 ∧ (1 : ℝ) ≤ 4 ∧ (1 : ℝ) / 100 ≤ 50 ∧ (50 : ℝ) ≤ 100) ∧
      (convertAbsorbanceTransmittance
          (convertAbsorbanceTransmittance [(1 : ℝ)] DataMode.absorbance DataMode.transmittance)
          DataMode.transmittance DataMode.absorbance = [(1 : ℝ)] ∧
        convertAbsorbanceTransmittance
          (convertAbsorbanceTransmittance [(50 : ℝ)] DataMode.transmittance DataMode.absorbance)
          DataMode.absorbance DataMode.transmittance = [(50 : ℝ)]) :=
  ⟨⟨by norm_num, by norm_num, by norm_num, by norm_num⟩,
    convertAbsorbanceTransmittance_roundtrip 1 50 (by norm_num) (by norm_num)
      (by norm_num) (by norm_num)⟩

/-- C9.  For every finite input, transmittance→absorbance outputs lie in
`[0, 4]` and absorbance→transmittance outputs lie in `(0, 100]`; in
particular neither direction can produce a NaN or an infinity. -/
theorem convertAbsorbanceTransmittance_finite_range (yData : List ℝ) :
    (∀ v ∈ convertAbsorbanceTransmittance yData DataMode.transmittance DataMode.absorbance,
      0 ≤ v ∧ v ≤ 4) ∧
    (∀ v ∈ convertAbsorbanceTransmittance yData DataMode.absorbance DataMode.transmittance,
      0 < v ∧ v ≤ 100) := by
  have h10 : (1 : ℝ) < 10 := by norm_num
  constructor
  · intro v hv
    have hv2 : v ∈ yData.map fun transmittance =>
        -(Real.logb 10 (max (1 / 100) (min 100 transmittance) / 100)) := by
      simpa [convertAbsorbanceTransmittance] using hv
    obtain ⟨t, _, rfl⟩ := List.mem_map.mp hv2
    have hc1 : (1 : ℝ) / 100 ≤ max (1 / 100) (min 100 t) := le_max_left _ _
    have hc2 : max (1 / 100) (min 100 t) ≤ 100 := max_le (by norm_num) (min_le_left _ _)
    have hdivpos : (0 : ℝ) < max (1 / 100) (min 100 t) / 100 :=
      div_pos (lt_of_lt_of_le (by norm_num) hc1) (by norm_num)
    constructor
    · have := Real.logb_nonpos h10 (le_of_lt hdivpos) (by linarith)
      linarith
    · have harg : (10 : ℝ) ^ (-(4 : ℝ)) ≤ max (1 / 100) (min 100 t) / 100 := by
        rw [rpow_neg_four_eq]; linarith
      have := (Real.le_logb_iff_rpow_le h10 hdivpos).mpr harg
      linarith
  · intro v hv
    have hv2 : v ∈ yData.map fun absorbance =>
        (10 : ℝ) ^ (-(max 0 (min 10 absorbance))) * 100 := by
      simpa [convertAbsorbanceTransmittance] using hv
    obtain ⟨a, _, rfl⟩ := List.mem_map.mp hv2
    have hc0 : (0 : ℝ) ≤ max 0 (min 10 a) := le_max_left _ _
    constructor
    · exact mul_pos (Real.rpow_pos_of_pos (by norm_num) _) (by norm_num)
    · have h1 : (10 : ℝ) ^ (-(max 0 (min 10 a))) ≤ 1 :=
        Real.rpow_le_one_of_one_le_of_nonpos (by norm_num) (by linarith)
      calc (10 : ℝ) ^ (-(max 0 (min 10 a))) * 100 ≤ 1 * 100 :=
            mul_le_mul_of_nonneg_right h1 (by norm_num)
        _ = 100 := one_mul 100

/-- Witness for C9 at `%T = 50`. -/
theorem convertAbsorbanceTransmittance_finite_range_witness :
    (-(Real.logb 10 (max (1 / 100) (min 100 (50 : ℝ)) / 100)) ∈
        convertAbsorbanceTransmittance [(50 : ℝ)] DataMode.transmittance DataMode.absorbance) ∧
      (0 ≤ -(Real.logb 10 (max (1 / 100) (min 100 (50 : ℝ)) / 100)) ∧
        -(Real.logb 10 (max (1 / 100) (min 100 (50 : ℝ)) / 100)) ≤ 4) := by
  have hmem : -(Real.logb 10 (max (1 / 100) (min 100 (50 : ℝ)) / 100)) ∈
      convertAbsorbanceTransmittance [(50 : ℝ)] DataMode.transmittance DataMode.absorbance := by
    simp [convertAbsorbanceTransmittance]
  exact ⟨hmem, (convertAbsorbanceTransmittance_finite_range [(50 : ℝ)]).1 _ hmem⟩

end Canis
